import Mathlib

/-!
Verification development for the langgraph-bigtool library.

The definitions below are a shallow embedding of the TypeScript source:

* src/types.ts                      : addNew reducer, tool registry shape
* src/nodes/agent.ts                : callModel tool binding
* src/nodes/routing.ts              : shouldContinue router
* src/nodes/tools.ts                : selectTools node
* src/graph.ts                      : toolNode tool list
* src/utils/registry.ts             : getToolId, createToolDocument
* src/utils/retrieval.ts            : getDefaultRetrievalTool
* src/stores/RedisVectorBaseStore.ts            : indexTools (fingerprint cache)
* src/stores/RedisCachedMemoryVectorBaseStore.ts : indexTools (key-presence cache)
* src/stores/MemoryVectorBaseStore.ts           : search

JavaScript specifics that matter here are modelled explicitly: a possibly
undefined string is `Option String`; a template literal renders `undefined`
as the string "undefined" (jsStr) while `x || ""` renders it as "" (orEmpty);
a JS object used as a map is an insertion-ordered association list.
SHA-256 and the embedding function are opaque parameters.
-/

namespace BigTool

/-- A tool as seen by the library: name (also its id) and description.
`description` is `Option String` because at runtime a tool object may
lack a description even though the TS type declares one. -/
structure Tool where
  name : String
  description : Option String
deriving Repr, DecidableEq

/-- JS template-literal rendering: an undefined value prints as "undefined". -/
def jsStr : Option String → String
  | some s => s
  | none => "undefined"

/-- JS `x || ""`: undefined (and empty) become the empty string. -/
def orEmpty : Option String → String
  | some s => s
  | none => ""

/-- A tool registry: JS object mapping tool id to tool, insertion ordered. -/
abbrev Registry := List (String × Tool)

/-- src/types.ts addNew: custom reducer for tool ids.
`const existing = new Set(left); const newIds = right.filter(id => !existing.has(id)); return [...left, ...newIds]` -/
def addNew (left right : List String) : List String :=
  left ++ right.filter (fun id => decide (id ∉ left))

/-- Association-list update with overwrite, the model of `obj[k] = v` /
redis SET: replace the first binding of the key, or append a new one. -/
def setKV {α : Type} : List (String × α) → String → α → List (String × α)
  | [], k, v => [(k, v)]
  | e :: es, k, v => if e.1 == k then (k, v) :: es else e :: setKV es k v

/-- Association-list lookup, the model of `obj[k]` / redis GET. -/
def lookupKV {α : Type} : List (String × α) → String → Option α
  | [], _ => none
  | e :: es, k => if e.1 == k then some e.2 else lookupKV es k

/-- JS object property lookup `toolRegistry[id]`. -/
def lookupTool (r : Registry) (id : String) : Option Tool :=
  lookupKV r id

/-- utils/registry.ts getToolId: a tool's id is its name. -/
def getToolId (t : Tool) : String := t.name

/-- A document held by a vector store: page content plus the tool metadata
attached to it (the Document metadata fields set by this library). -/
structure Doc where
  pageContent : String
  tool_id : String
  name : String
  description : String
deriving Repr, DecidableEq

/-- utils/registry.ts createToolDocument: page content is
`name ++ " " ++ (description || "")`; metadata mirrors the tool. -/
def createToolDocument (t : Tool) : Doc :=
  { pageContent := t.name ++ " " ++ orEmpty t.description
    tool_id := getToolId t
    name := t.name
    description := orEmpty t.description }

/-! ## Messages, routing and the select-tools node -/

/-- One tool call requested by an AI message. `query` models
`args.query` (only read for retrieve_tools calls); `id` is the optional
tool call id. -/
structure ToolCall where
  name : String
  query : String
  id : Option String
deriving Repr, DecidableEq

/-- The message shapes the state machine inspects. -/
inductive Message where
  | ai (tool_calls : List ToolCall) : Message
  | human (content : String) : Message
  | system (content : String) : Message
  | toolMsg (content : String) (tool_call_id : String) (name : String) : Message
deriving Repr, DecidableEq

/-- The langgraph END sentinel. -/
def END : String := "__end__"

/-- messages.ts isAIMessage. -/
def isAIMessage : Message → Bool
  | Message.ai _ => true
  | _ => false

/-- src/nodes/routing.ts shouldContinue: classify the latest model output.
The final two branches of the source both return "tools"; they are kept
separate here as in the source. -/
def shouldContinue (messages : List Message) (selected_tool_ids : List String) : String :=
  if messages.isEmpty then END
  else
    match messages.getLast? with
    | none => END
    | some last =>
      match last with
      | Message.ai tool_calls =>
        if tool_calls.isEmpty then END
        else if tool_calls.any (fun tc => tc.name == "retrieve_tools") then "select_tools"
        else if selected_tool_ids.isEmpty then "tools"
        else "tools"
      | _ => END

/-- The four transition rules of the claim, transcribed from the spec's
words (spec 4.5, rules 1-4), for comparison with shouldContinue. -/
def routeSpec (messages : List Message) : String :=
  match messages.getLast? with
  | some (Message.ai calls) =>
    if calls.isEmpty then END
    else if calls.any (fun tc => tc.name == "retrieve_tools") then "select_tools"
    else "tools"
  | _ => END

/-- src/nodes/tools.ts: the per-call tool description line
`- ${tool.name}: ${tool.description}` joined over the retrieved ids
(ids missing from the registry are dropped by filter(Boolean)). -/
def describeRetrieved (registry : Registry) (retrievedIds : List String) : String :=
  String.intercalate "\n" (retrievedIds.filterMap (fun id =>
    (lookupTool registry id).map (fun t => "- " ++ t.name ++ ": " ++ jsStr t.description)))

/-- src/nodes/tools.ts: content of the ToolMessage answering one
retrieve_tools call. -/
def retrievalContent (registry : Registry) (retrievedIds : List String) : String :=
  let d := describeRetrieved registry retrievedIds
  if d ≠ "" then
    "Found " ++ toString retrievedIds.length ++ " relevant tools:\n" ++ d
  else
    "No relevant tools found for your query."

/-- The partial state update returned by the selectTools node. -/
structure SelectToolsResult where
  messages : List Message
  selected_tool_ids : List String
deriving Repr, DecidableEq

/-- src/nodes/tools.ts selectTools, loop body: a call named
retrieve_tools is answered with a ToolMessage and contributes its
retrieved ids; every other call is skipped. `retrieveFn` models the
configured retrieval function applied to the call's query. -/
def selectStep (registry : Registry) (retrieveFn : String → List String)
    (acc : List Message × List String) (tc : ToolCall) :
    List Message × List String :=
  if tc.name == "retrieve_tools" then
    let retrievedIds := retrieveFn tc.query
    (acc.1 ++ [Message.toolMsg (retrievalContent registry retrievedIds)
                 (tc.id.getD "") "retrieve_tools"],
     acc.2 ++ retrievedIds)
  else acc

/-- src/nodes/tools.ts selectTools: walk the tool calls of the last AI
message with selectStep, starting from empty accumulators. -/
def selectTools (registry : Registry) (retrieveFn : String → List String)
    (messages : List Message) : SelectToolsResult :=
  match messages.getLast? with
  | none => ⟨[], []⟩
  | some last =>
    match last with
    | Message.ai calls =>
      if calls.isEmpty then ⟨[], []⟩
      else
        let acc := calls.foldl (selectStep registry retrieveFn) ([], [])
        ⟨acc.1, acc.2⟩
    | _ => ⟨[], []⟩

/-! ## Tool visibility (agent node and tool node) -/

/-- Object.values of the optional default tool registry. -/
def defaultToolValues : Option Registry → List Tool
  | some dr => dr.map (fun e => e.2)
  | none => []

/-- src/nodes/agent.ts callModel: the tool list bound to the model:
`[retrieveTool, ...defaultTools, ...selectedTools]` where selectedTools is
`selected_tool_ids.map(id => toolRegistry[id]).filter(Boolean)`. -/
def callModelTools (retrieveTool : Tool) (defaultRegistryOpt : Option Registry)
    (registry : Registry) (selected_tool_ids : List String) : List Tool :=
  let selectedTools := selected_tool_ids.filterMap (fun id => lookupTool registry id)
  let defaultTools := defaultToolValues defaultRegistryOpt
  retrieveTool :: (defaultTools ++ selectedTools)

/-- src/graph.ts toolNode: the tool list handed to the ToolNode:
same selection, with the ternary `selectedTools.length > 0 ? selectedTools : []`. -/
def toolNodeTools (retrieveTool : Tool) (defaultRegistryOpt : Option Registry)
    (registry : Registry) (selected_tool_ids : List String) : List Tool :=
  let selectedTools := selected_tool_ids.filterMap (fun id => lookupTool registry id)
  let toolsToUse := if selectedTools.length > 0 then selectedTools else []
  let defaultToolsList := defaultToolValues defaultRegistryOpt
  retrieveTool :: (defaultToolsList ++ toolsToUse)

/-! ## RedisVectorBaseStore: fingerprint-cached indexing -/

/-- Metadata record stored under `bigtool:tools:meta:toolId`
(interface ToolData in RedisVectorBaseStore.ts). -/
structure ToolData where
  tool_id : String
  name : String
  description : String
  content_hash : String
  indexed_at : Nat
deriving Repr, DecidableEq

/-- The text hashed by RedisVectorBaseStore.indexTools:
the raw template literal, with no default for an undefined description. -/
def hashInputRedis (t : Tool) : String := t.name ++ " " ++ jsStr t.description

/-- The text embedded for a tool: the page content of its document. -/
def embedInputRedis (t : Tool) : String := (createToolDocument t).pageContent

/-- State of RedisVectorBaseStore: the metadata key space, the vector
store documents, and the texts the embedding provider was asked to embed
(addDocuments embeds each added document's page content). -/
structure RedisState where
  meta : List (String × ToolData)
  docs : List Doc
  embeddedTexts : List String
deriving Repr, DecidableEq

def emptyRedisState : RedisState := ⟨[], [], []⟩

/-- RedisVectorBaseStore.indexTools hit test: an entry exists for the id
and its stored content_hash equals the hash of the current text. -/
def redisHit (hash : String → String) (meta : List (String × ToolData))
    (e : String × Tool) : Bool :=
  match lookupKV meta e.1 with
  | some m => m.content_hash == hash (hashInputRedis e.2)
  | none => false

/-- The metadata record written for a missed tool. -/
def redisMetaOf (hash : String → String) (now : Nat) (e : String × Tool) :
    String × ToolData :=
  (e.1,
   { tool_id := e.1
     name := e.2.name
     description := orEmpty e.2.description
     content_hash := hash (hashInputRedis e.2)
     indexed_at := now })

/-- RedisVectorBaseStore.indexTools, loop body: a hit only counts as
unchanged; a miss contributes a document and a metadata write. -/
def redisStep (hash : String → String) (now : Nat)
    (meta : List (String × ToolData))
    (acc : List Doc × List (String × ToolData) × Nat) (e : String × Tool) :
    List Doc × List (String × ToolData) × Nat :=
  if redisHit hash meta e then (acc.1, acc.2.1, acc.2.2 + 1)
  else (acc.1 ++ [createToolDocument e.2],
        acc.2.1 ++ [redisMetaOf hash now e],
        acc.2.2)

/-- RedisVectorBaseStore.indexTools. Returns the new state and the
reported pair (new/updated count, unchanged count). Empty registry is an
early no-op return. Documents and metadata writes happen only when at
least one tool missed. -/
def indexToolsRedis (hash : String → String) (now : Nat)
    (registry : Registry) (st : RedisState) : RedisState × Nat × Nat :=
  if registry.isEmpty then (st, 0, 0)
  else
    let step := registry.foldl (redisStep hash now st.meta) ([], [], 0)
    let newTools := step.1
    let metaUpdates := step.2.1
    let unchangedCount := step.2.2
    if newTools.isEmpty then (st, 0, unchangedCount)
    else
      ({ meta := metaUpdates.foldl (fun m u => setKV m u.1 u.2) st.meta
         docs := st.docs ++ newTools
         embeddedTexts := st.embeddedTexts ++ newTools.map (fun d => d.pageContent) },
       newTools.length, unchangedCount)

/-! ## MemoryVectorBaseStore and RedisCachedMemoryVectorBaseStore -/

/-- Tool metadata kept by MemoryVectorBaseStore (interface ToolData there). -/
structure ToolMeta where
  tool_id : String
  name : String
  description : String
deriving Repr, DecidableEq

/-- Cache entry stored in Redis by RedisCachedMemoryVectorBaseStore
(interface CachedEmbedding). Vectors are modelled abstractly as Nat. -/
structure CachedEmbedding where
  tool_id : String
  name : String
  description : String
  embedding : Nat
  cached_at : Nat
deriving Repr, DecidableEq

/-- State of the (possibly Redis-cached) memory store: the metadata map,
the in-memory vector entries, and the Redis embedding cache keyed by
`indexName:getToolId(tool)` (the fixed index name is left implicit, so
the key is the tool's name). -/
structure MemState where
  toolMetadata : List (String × ToolMeta)
  vectors : List (Nat × Doc)
  cache : List (String × CachedEmbedding)
deriving Repr, DecidableEq

def emptyMemState : MemState := ⟨[], [], []⟩

/-- MemoryVectorBaseStore.addVectors: store metadata per document and
append the vector/document pairs to the underlying store. -/
def addVectors (vecs : List (Nat × Doc)) (st : MemState) : MemState :=
  { st with
    toolMetadata := vecs.foldl
      (fun m vd => setKV m vd.2.tool_id ⟨vd.2.tool_id, vd.2.name, vd.2.description⟩)
      st.toolMetadata
    vectors := st.vectors ++ vecs }

/-- MemoryVectorBaseStore.indexTools: build a document per registry
entry, record metadata, and addDocuments (which embeds every page
content and appends the vectors; vectors already present are kept, so
repeated indexing duplicates documents). -/
def indexToolsMem (embed : String → Nat) (registry : Registry)
    (st : MemState) : MemState :=
  { st with
    toolMetadata := registry.foldl
      (fun m e => setKV m e.1 ⟨e.1, e.2.name, orEmpty e.2.description⟩)
      st.toolMetadata
    vectors := st.vectors ++ registry.map
      (fun e => (embed (createToolDocument e.2).pageContent, createToolDocument e.2)) }

/-- RedisCachedMemoryVectorBaseStore.indexTools, loop body: a registry
entry found in the batch-get results keeps its cached embedding, the
rest are collected for embedding computation. -/
def splitStep (cachedResults : List (String × CachedEmbedding))
    (acc : List (Nat × Doc) × List (String × Tool)) (e : String × Tool) :
    List (Nat × Doc) × List (String × Tool) :=
  match lookupKV cachedResults e.1 with
  | some c => (acc.1 ++ [(c.embedding, createToolDocument e.2)], acc.2)
  | none => (acc.1, acc.2 ++ [e])

/-- The batch-get of cached embeddings (getCachedEmbeddingsBatch): one
entry per registry key whose cache key (the tool's name) is present. -/
def cachedResultsOf (st : MemState) (registry : Registry) :
    List (String × CachedEmbedding) :=
  registry.filterMap (fun e =>
    (lookupKV st.cache (getToolId e.2)).map (fun c => (e.1, c)))

/-- The text embedded for a cache miss. -/
def missTextOf (e : String × Tool) : String :=
  e.2.name ++ " " ++ orEmpty e.2.description

/-- The cache entry written for a computed embedding. -/
def cacheEntryOf (now : Nat) (p : (String × Tool) × Nat) :
    String × CachedEmbedding :=
  (getToolId p.1.2,
   { tool_id := getToolId p.1.2
     name := p.1.2.name
     description := orEmpty p.1.2.description
     embedding := p.2
     cached_at := now })

/-- RedisCachedMemoryVectorBaseStore.indexTools. Returns the new state
and the reported pair (cache hit count, computed embedding count). A tool
is a hit exactly when a cache entry exists under its key; no fingerprint
is compared. -/
def indexToolsCachedMem (embed : String → Nat) (now : Nat)
    (registry : Registry) (st : MemState) : MemState × Nat × Nat :=
  let tools := registry
  let cachedResults := cachedResultsOf st tools
  let split := tools.foldl (splitStep cachedResults) ([], [])
  let misses := split.2
  let texts := misses.map missTextOf
  let missVecs := texts.map embed
  let cacheEntries := (misses.zip missVecs).map (cacheEntryOf now)
  let allVecs := split.1 ++ (misses.zip missVecs).map (fun p => (p.2, createToolDocument p.1.2))
  let st1 := { st with cache := cacheEntries.foldl (fun m u => setKV m u.1 u.2) st.cache }
  let st2 := if allVecs.isEmpty then st1 else addVectors allVecs st1
  (st2, cachedResults.length, misses.length)

/-- An item returned by store.search (SearchItem): the value carries the
tool metadata, the key is the tool id. Scores are modelled as Int. -/
structure SearchItemRec where
  value : ToolMeta
  key : String
  score : Int
deriving Repr, DecidableEq

/-- Stable descending insertion for the similarity sort. -/
def insertByScoreDesc (x : Doc × Int) : List (Doc × Int) → List (Doc × Int)
  | [] => [x]
  | y :: ys => if y.2 ≥ x.2 then y :: insertByScoreDesc x ys else x :: y :: ys

/-- Stable sort by descending score, modelling the similarity ranking of
the in-memory vector store. -/
def sortByScoreDesc (l : List (Doc × Int)) : List (Doc × Int) :=
  l.foldl (fun acc x => insertByScoreDesc x acc) []

/-- langchain MemoryVectorStore.similaritySearchWithScore: score every
stored vector against the embedded query, rank by descending similarity,
keep the top k. `embed` and `simFn` are opaque parameters. -/
def similaritySearchScored (embed : String → Nat) (simFn : Nat → Nat → Int)
    (st : MemState) (query : String) (k : Nat) : List (Doc × Int) :=
  let q := embed query
  (sortByScoreDesc (st.vectors.map (fun vd => (vd.2, simFn q vd.1)))).take k

/-- `options?.limit || 10`: an absent limit, and also a limit of 0 (JS
falsiness), become 10. -/
def effectiveLimit (limitOpt : Option Nat) : Nat :=
  match limitOpt with
  | some l => if l = 0 then 10 else l
  | none => 10

/-- MemoryVectorBaseStore.search. `options?.limit || 10` and
`options?.query || ""` are modelled exactly (a limit of 0 falls back
to 10). An empty query returns the known tools in insertion order up to
the limit with score 1; otherwise the similarity results are mapped to
items without any deduplication. -/
def searchMem (embed : String → Nat) (simFn : Nat → Nat → Int)
    (st : MemState) (limitOpt : Option Nat) (query : String) : List SearchItemRec :=
  if query = "" then
    (st.toolMetadata.take (effectiveLimit limitOpt)).map (fun e => ⟨e.2, e.1, 1⟩)
  else
    (similaritySearchScored embed simFn st query (effectiveLimit limitOpt)).map
      (fun ds =>
        ⟨(lookupKV st.toolMetadata ds.1.tool_id).getD
           ⟨ds.1.tool_id, ds.1.name, ds.1.description⟩,
         ds.1.tool_id, ds.2⟩)

/-! ## getDefaultRetrievalTool -/

/-- src/utils/retrieval.ts: the retrieval function produced by
getDefaultRetrievalTool. A missing store throws; a store.search outcome
that is an error is caught and absorbed into an empty id list; a
successful outcome yields one tool id per item (the value of every item
produced by this library's stores carries a tool_id, so the tool_id
branch of the extraction is the one taken). -/
def retrieveDefault (storePresent : Bool)
    (searchOutcome : Except String (List SearchItemRec)) :
    Except String (List String) :=
  if !storePresent then
    Except.error "Store is required for default retrieval function"
  else
    match searchOutcome with
    | Except.ok results => Except.ok (results.map (fun r => r.value.tool_id))
    | Except.error _ => Except.ok []

/-! ## Helper lemmas -/

theorem lookupKV_nil {α : Type} (k : String) : lookupKV ([] : List (String × α)) k = none := rfl

theorem lookupKV_cons {α : Type} (e : String × α) (es : List (String × α)) (k : String) :
    lookupKV (e :: es) k = if e.1 == k then some e.2 else lookupKV es k := rfl

theorem lookupKV_setKV_self {α : Type} (m : List (String × α)) (k : String) (v : α) :
    lookupKV (setKV m k v) k = some v := by
  induction m with
  | nil => simp [setKV, lookupKV]
  | cons e es ih =>
    by_cases h : e.1 = k
    · simp [setKV, lookupKV, h]
    · simp [setKV, lookupKV, h, ih]

theorem lookupKV_setKV_ne {α : Type} (m : List (String × α)) (k k' : String) (v : α)
    (h : k' ≠ k) : lookupKV (setKV m k v) k' = lookupKV m k' := by
  have hs : k ≠ k' := Ne.symm h
  induction m with
  | nil => simp [setKV, lookupKV, hs]
  | cons e es ih =>
    by_cases h1 : e.1 = k
    · have h2 : e.1 ≠ k' := by rw [h1]; exact hs
      simp [setKV, lookupKV, h1, h2, hs]
    · simp [setKV, lookupKV, h1, ih]

theorem lookupKV_eq_none {α : Type} (m : List (String × α)) (k : String)
    (h : k ∉ m.map Prod.fst) : lookupKV m k = none := by
  induction m with
  | nil => rfl
  | cons e es ih =>
    simp only [List.map_cons, List.mem_cons, not_or] at h
    have h3 : e.1 ≠ k := Ne.symm h.1
    simp [lookupKV, h3, ih h.2]

theorem lookupKV_isSome_of_mem {α : Type} (m : List (String × α)) (k : String)
    (h : k ∈ m.map Prod.fst) : (lookupKV m k).isSome = true := by
  induction m with
  | nil => simp at h
  | cons e es ih =>
    by_cases h1 : e.1 = k
    · simp [lookupKV, h1]
    · simp only [List.map_cons, List.mem_cons] at h
      rcases h with h | h
      · exact absurd h.symm h1
      · simp [lookupKV, h1, ih h]

theorem lookupKV_foldl_setKV {α : Type} (entries : List (String × α))
    (m0 : List (String × α)) (k : String) (hnd : (entries.map Prod.fst).Nodup) :
    lookupKV (entries.foldl (fun m u => setKV m u.1 u.2) m0) k =
      match lookupKV entries k with
      | some v => some v
      | none => lookupKV m0 k := by
  induction entries generalizing m0 with
  | nil => simp [lookupKV]
  | cons e es ih =>
    simp only [List.map_cons, List.nodup_cons] at hnd
    rw [List.foldl_cons, ih (setKV m0 e.1 e.2) hnd.2]
    by_cases h : e.1 = k
    · subst h
      have h1 : lookupKV es e.1 = none := lookupKV_eq_none es e.1 hnd.1
      simp [h1, lookupKV_cons, lookupKV_setKV_self]
    · rw [lookupKV_cons]
      have hb : (e.1 == k) = false := by simp [h]
      rw [hb]
      simp only [Bool.false_eq_true, if_false]
      cases h2 : lookupKV es k with
      | some v => rfl
      | none => simp [lookupKV_setKV_ne m0 e.1 k e.2 (Ne.symm h)]

theorem isSome_lookupKV_foldl_setKV_of_isSome {α : Type} (entries : List (String × α))
    (m0 : List (String × α)) (k : String) (h : (lookupKV m0 k).isSome = true) :
    (lookupKV (entries.foldl (fun m u => setKV m u.1 u.2) m0) k).isSome = true := by
  induction entries generalizing m0 with
  | nil => exact h
  | cons e es ih =>
    rw [List.foldl_cons]
    apply ih
    by_cases h1 : k = e.1
    · rw [h1, lookupKV_setKV_self]; rfl
    · rw [lookupKV_setKV_ne m0 e.1 k e.2 h1]; exact h

theorem isSome_lookupKV_foldl_setKV_of_mem {α : Type} (entries : List (String × α))
    (m0 : List (String × α)) (k : String) (h : k ∈ entries.map Prod.fst) :
    (lookupKV (entries.foldl (fun m u => setKV m u.1 u.2) m0) k).isSome = true := by
  induction entries generalizing m0 with
  | nil => simp at h
  | cons e es ih =>
    rw [List.foldl_cons]
    simp only [List.map_cons, List.mem_cons] at h
    rcases h with h | h
    · apply isSome_lookupKV_foldl_setKV_of_isSome
      rw [h, lookupKV_setKV_self]; rfl
    · exact ih (setKV m0 e.1 e.2) h

theorem lookupKV_map_of_mem_nodup {α β : Type} (l : List (String × α))
    (g : String × α → β) (hnd : (l.map Prod.fst).Nodup) (e : String × α) (he : e ∈ l) :
    lookupKV (l.map (fun x => (x.1, g x))) e.1 = some (g e) := by
  induction l with
  | nil => simp at he
  | cons x xs ih =>
    simp only [List.map_cons, List.nodup_cons] at hnd
    rcases List.mem_cons.mp he with h | h
    · subst h; simp [lookupKV]
    · have hne : ¬ x.1 = e.1 := by
        intro hh
        exact hnd.1 (hh ▸ List.mem_map.mpr ⟨e, h, rfl⟩)
      simp [lookupKV, hne, ih hnd.2 h]

theorem length_filterMap_of_isSome {α β : Type} (l : List α) (f : α → Option β)
    (h : ∀ a ∈ l, (f a).isSome = true) : (l.filterMap f).length = l.length := by
  induction l with
  | nil => rfl
  | cons x xs ih =>
    obtain ⟨y, hy⟩ := Option.isSome_iff_exists.mp (h x (List.mem_cons_self x xs))
    have ih2 := ih (fun a ha => h a (List.mem_cons_of_mem x ha))
    simp [List.filterMap_cons, hy, ih2]

theorem selectFold_eq (registry : Registry) (retrieveFn : String → List String)
    (calls : List ToolCall) (ms : List Message) (ids : List String) :
    calls.foldl (selectStep registry retrieveFn) (ms, ids)
    = (ms ++ (calls.filter (fun tc => tc.name == "retrieve_tools")).map
         (fun tc => Message.toolMsg (retrievalContent registry (retrieveFn tc.query))
            (tc.id.getD "") "retrieve_tools"),
       ids ++ (calls.filter (fun tc => tc.name == "retrieve_tools")).flatMap
         (fun tc => retrieveFn tc.query)) := by
  induction calls generalizing ms ids with
  | nil => simp
  | cons tc rest ih =>
    by_cases h : tc.name = "retrieve_tools"
    · rw [List.foldl_cons]
      rw [show selectStep registry retrieveFn (ms, ids) tc
            = (ms ++ [Message.toolMsg (retrievalContent registry (retrieveFn tc.query))
                (tc.id.getD "") "retrieve_tools"],
               ids ++ retrieveFn tc.query) from by simp [selectStep, h]]
      rw [ih]
      simp [List.filter_cons, h]
    · rw [List.foldl_cons]
      rw [show selectStep registry retrieveFn (ms, ids) tc = (ms, ids) from by
        simp [selectStep, h]]
      rw [ih]
      simp [List.filter_cons, h]

theorem redisFold_eq (hash : String → String) (now : Nat)
    (meta : List (String × ToolData)) (l : Registry)
    (ds : List Doc) (us : List (String × ToolData)) (n : Nat) :
    l.foldl (redisStep hash now meta) (ds, us, n)
    = (ds ++ (l.filter (fun e => !redisHit hash meta e)).map
         (fun e => createToolDocument e.2),
       us ++ (l.filter (fun e => !redisHit hash meta e)).map (redisMetaOf hash now),
       n + (l.filter (fun e => redisHit hash meta e)).length) := by
  induction l generalizing ds us n with
  | nil => simp
  | cons e es ih =>
    by_cases h : redisHit hash meta e
    · rw [List.foldl_cons]
      rw [show redisStep hash now meta (ds, us, n) e = (ds, us, n + 1) from by
        simp [redisStep, h]]
      rw [ih]
      simp only [List.filter_cons, h, Bool.not_true, Bool.false_eq_true, if_false, if_true,
        List.length_cons, Prod.mk.injEq]
      refine ⟨trivial, trivial, by omega⟩
    · rw [List.foldl_cons]
      rw [show redisStep hash now meta (ds, us, n) e
            = (ds ++ [createToolDocument e.2], us ++ [redisMetaOf hash now e], n) from by
        simp [redisStep, h]]
      rw [ih]
      simp [List.filter_cons, h]

theorem splitFold_eq (cR : List (String × CachedEmbedding)) (l : Registry)
    (hs : List (Nat × Doc)) (bs : List (String × Tool)) :
    l.foldl (splitStep cR) (hs, bs)
    = (hs ++ l.filterMap (fun e => (lookupKV cR e.1).map
         (fun c => (c.embedding, createToolDocument e.2))),
       bs ++ l.filter (fun e => (lookupKV cR e.1).isNone)) := by
  induction l generalizing hs bs with
  | nil => simp
  | cons e es ih =>
    cases h : lookupKV cR e.1 with
    | some c =>
      rw [List.foldl_cons]
      rw [show splitStep cR (hs, bs) e
            = (hs ++ [(c.embedding, createToolDocument e.2)], bs) from by
        simp [splitStep, h]]
      rw [ih]
      simp [List.filterMap_cons, List.filter_cons, h]
    | none =>
      rw [List.foldl_cons]
      rw [show splitStep cR (hs, bs) e = (hs, bs ++ [e]) from by simp [splitStep, h]]
      rw [ih]
      simp [List.filterMap_cons, List.filter_cons, h]

theorem filterMap_const_none {α β : Type} (l : List α) :
    l.filterMap (fun _ => (none : Option β)) = [] := by
  induction l with
  | nil => rfl
  | cons x xs ih => simp [List.filterMap_cons, ih]

theorem redisHit_empty (hash : String → String) (e : String × Tool) :
    redisHit hash ([] : List (String × ToolData)) e = false := rfl

theorem indexToolsRedis_first_pass (hash : String → String) (now : Nat)
    (registry : Registry) (hne : registry ≠ []) :
    indexToolsRedis hash now registry emptyRedisState
    = ({ meta := (registry.map (redisMetaOf hash now)).foldl
           (fun m u => setKV m u.1 u.2) []
         docs := registry.map (fun e => createToolDocument e.2)
         embeddedTexts := (registry.map (fun e => createToolDocument e.2)).map
           (fun d => d.pageContent) },
       registry.length, 0) := by
  have hreg : registry.isEmpty = false := by
    cases registry with
    | nil => exact absurd rfl hne
    | cons x xs => rfl
  have hfiltAll : registry.filter
      (fun e => !redisHit hash ([] : List (String × ToolData)) e) = registry := by
    apply List.filter_eq_self.mpr
    intro a _
    simp [redisHit_empty]
  have hfiltNone : registry.filter
      (fun e => redisHit hash ([] : List (String × ToolData)) e) = [] := by
    apply List.filter_eq_nil_iff.mpr
    intro a _
    simp [redisHit_empty]
  have hmapne : (registry.map (fun e => createToolDocument e.2)).isEmpty = false := by
    cases registry with
    | nil => exact absurd rfl hne
    | cons x xs => rfl
  simp only [indexToolsRedis, hreg, Bool.false_eq_true, if_false, redisFold_eq,
    List.nil_append, Nat.zero_add, hmapne, hfiltAll, hfiltNone, List.length_map,
    List.length_nil, Nat.add_zero, emptyRedisState]

theorem indexToolsRedis_second_pass (hash : String → String) (now : Nat)
    (registry : Registry) (st : RedisState) (hne : registry ≠ [])
    (hhit : ∀ e ∈ registry, redisHit hash st.meta e = true) :
    indexToolsRedis hash now registry st = (st, 0, registry.length) := by
  have hreg : registry.isEmpty = false := by
    cases registry with
    | nil => exact absurd rfl hne
    | cons x xs => rfl
  have hfiltAll : registry.filter (fun e => redisHit hash st.meta e) = registry := by
    apply List.filter_eq_self.mpr
    intro a ha
    exact hhit a ha
  have hfiltNone : registry.filter (fun e => !redisHit hash st.meta e) = [] := by
    apply List.filter_eq_nil_iff.mpr
    intro a ha
    simp [hhit a ha]
  simp only [indexToolsRedis, hreg, Bool.false_eq_true, if_false, redisFold_eq,
    List.nil_append, Nat.zero_add, hfiltAll, hfiltNone, List.map_nil,
    List.isEmpty_nil, if_true, List.length_nil]

theorem redisHit_after_first_pass (hash : String → String) (now : Nat)
    (registry : Registry) (hkeys : (registry.map Prod.fst).Nodup)
    (e : String × Tool) (he : e ∈ registry) :
    redisHit hash ((registry.map (redisMetaOf hash now)).foldl
      (fun m u => setKV m u.1 u.2) []) e = true := by
  have hkeys2 : ((registry.map (redisMetaOf hash now)).map Prod.fst).Nodup := by
    rw [List.map_map]
    exact hkeys
  have hlook : lookupKV (registry.map (redisMetaOf hash now)) e.1
      = some ((redisMetaOf hash now e).2) := by
    exact lookupKV_map_of_mem_nodup registry
      (fun x => (redisMetaOf hash now x).2) hkeys e he
  have h1 := lookupKV_foldl_setKV (registry.map (redisMetaOf hash now)) [] e.1 hkeys2
  rw [hlook] at h1
  unfold redisHit
  rw [h1]
  simp [redisMetaOf]

theorem cache_of_addVectors (vecs : List (Nat × Doc)) (st : MemState) :
    (addVectors vecs st).cache = st.cache := rfl

theorem isSome_option_map {α β : Type} (o : Option α) (f : α → β) :
    (o.map f).isSome = o.isSome := by
  cases o <;> rfl

theorem filterMap_eq_nil_of_none {α β : Type} (l : List α) (f : α → Option β)
    (h : ∀ a ∈ l, f a = none) : l.filterMap f = [] := by
  induction l with
  | nil => rfl
  | cons x xs ih =>
    simp [List.filterMap_cons, h x (List.mem_cons_self x xs),
      ih (fun a ha => h a (List.mem_cons_of_mem x ha))]

theorem cachedResultsOf_empty (registry : Registry) :
    cachedResultsOf emptyMemState registry = [] :=
  filterMap_eq_nil_of_none registry _ (fun _ _ => rfl)

theorem cacheEntryOf_keys (now : Nat) (l : Registry) (vs : List Nat)
    (hlen : l.length ≤ vs.length) :
    ((l.zip vs).map (cacheEntryOf now)).map Prod.fst
      = l.map (fun e => getToolId e.2) := by
  rw [List.map_map]
  have h1 : (Prod.fst ∘ cacheEntryOf now)
      = (fun e : String × Tool => getToolId e.2) ∘ Prod.fst := rfl
  rw [h1, ← List.map_map, List.map_fst_zip _ _ hlen]

theorem filter_isNone_lookup_nil (l : Registry) :
    l.filter (fun e =>
      (lookupKV ([] : List (String × CachedEmbedding)) e.1).isNone) = l := by
  apply List.filter_eq_self.mpr
  intro a _
  rfl

theorem indexToolsCachedMem_first_pass (embed : String → Nat) (now : Nat)
    (registry : Registry) :
    (indexToolsCachedMem embed now registry emptyMemState).2
      = (0, registry.length)
    ∧ ∀ e ∈ registry,
        (lookupKV (indexToolsCachedMem embed now registry emptyMemState).1.cache
          (getToolId e.2)).isSome = true := by
  constructor
  · simp only [indexToolsCachedMem, cachedResultsOf_empty, splitFold_eq,
      List.nil_append, filter_isNone_lookup_nil, List.length_nil]
  · intro e he
    simp only [indexToolsCachedMem, cachedResultsOf_empty, splitFold_eq,
      List.nil_append, filter_isNone_lookup_nil,
      apply_ite (fun s : MemState => s.cache), cache_of_addVectors, ite_self]
    apply isSome_lookupKV_foldl_setKV_of_mem
    have hlen : registry.length ≤ ((registry.map missTextOf).map embed).length := by
      simp
    rw [cacheEntryOf_keys now registry _ hlen]
    exact List.mem_map.mpr ⟨e, he, rfl⟩

theorem indexToolsCachedMem_second_pass (embed : String → Nat) (now : Nat)
    (registry : Registry) (st : MemState)
    (hpresent : ∀ e ∈ registry,
      (lookupKV st.cache (getToolId e.2)).isSome = true) :
    (indexToolsCachedMem embed now registry st).2 = (registry.length, 0) := by
  have hcrlen : (cachedResultsOf st registry).length = registry.length := by
    apply length_filterMap_of_isSome
    intro a ha
    rw [isSome_option_map]
    exact hpresent a ha
  have hmiss : registry.filter (fun e =>
      (lookupKV (cachedResultsOf st registry) e.1).isNone) = [] := by
    apply List.filter_eq_nil_iff.mpr
    intro a ha
    obtain ⟨c, hc⟩ := Option.isSome_iff_exists.mp (hpresent a ha)
    have hmem : (a.1, c) ∈ cachedResultsOf st registry := by
      apply List.mem_filterMap.mpr
      exact ⟨a, ha, by rw [hc]; rfl⟩
    have hsome := lookupKV_isSome_of_mem _ a.1
      (List.mem_map.mpr ⟨(a.1, c), hmem, rfl⟩)
    simp only [Option.isNone_iff_eq_none]
    intro hnone
    rw [hnone] at hsome
    simp at hsome
  simp only [indexToolsCachedMem, splitFold_eq, List.nil_append, hmiss, hcrlen,
    List.length_nil]

theorem indexToolsRedis_single_miss (hash : String → String) (now : Nat)
    (e : String × Tool) (st : RedisState)
    (hmiss : redisHit hash st.meta e = false) :
    (indexToolsRedis hash now [e] st).2 = (1, 0) := by
  simp only [indexToolsRedis, List.isEmpty_cons, Bool.false_eq_true, if_false,
    List.foldl_cons, List.foldl_nil, redisStep, hmiss, List.nil_append]
  rfl

/-! ## Claim theorems -/

/-- Claim C2: the merge reducer is idempotent and order preserving:
addNew (addNew L R) R = addNew L R; the result starts with L unchanged and
is followed by exactly the elements of R not in L, in R's order. -/
theorem addNew_idempotent_and_order_preserving (L R : List String) :
    addNew (addNew L R) R = addNew L R
    ∧ (addNew L R).take L.length = L
    ∧ (addNew L R).drop L.length = R.filter (fun id => decide (id ∉ L))
    ∧ List.Sublist ((addNew L R).drop L.length) R := by
  refine ⟨?_, ?_, ?_, ?_⟩
  · have h : R.filter (fun id => decide (id ∉ addNew L R)) = [] := by
      apply List.filter_eq_nil_iff.mpr
      intro a ha
      simp only [decide_eq_true_eq, Decidable.not_not, addNew, List.mem_append,
        List.mem_filter, decide_eq_true_eq]
      by_cases hL : a ∈ L
      · exact Or.inl hL
      · exact Or.inr ⟨ha, hL⟩
    show addNew L R ++ R.filter (fun id => decide (id ∉ addNew L R)) = addNew L R
    rw [h, List.append_nil]
  · simp [addNew, List.take_left]
  · simp [addNew, List.drop_left]
  · simp only [addNew, List.drop_left]
    exact List.filter_sublist R

/-- Claim C3 (code bug): two retrieve_tools calls in one message can both
retrieve the same not-yet-selected id; selectTools concatenates the results
without deduplication and addNew filters only against the left argument, so
the selection state ends with a duplicated id, contradicting the reducer's
stated contract. -/
theorem addNew_duplicates_from_repeated_retrieval :
    (selectTools [] (fun _ => ["a"])
      [Message.ai [⟨"retrieve_tools", "q1", some "1"⟩,
                   ⟨"retrieve_tools", "q2", some "2"⟩]]).selected_tool_ids = ["a", "a"]
    ∧ addNew [] ["a", "a"] = ["a", "a"]
    ∧ ¬ (addNew [] ["a", "a"]).Nodup := by
  refine ⟨rfl, rfl, by decide⟩

/-- Claim C4: shouldContinue implements exactly the four routing rules of
the spec, for every message history and independently of the selection
state. -/
theorem shouldContinue_matches_spec_rules (messages : List Message)
    (selected : List String) :
    shouldContinue messages selected = routeSpec messages := by
  cases messages with
  | nil => rfl
  | cons m ms =>
    cases hg : (m :: ms).getLast? with
    | none =>
      have : (m :: ms) ≠ [] := by simp
      rw [List.getLast?_eq_none_iff] at hg
      exact absurd hg this
    | some last =>
      cases last with
      | ai calls =>
        by_cases h1 : calls.isEmpty
        · simp [shouldContinue, routeSpec, hg, h1]
        · by_cases h2 : calls.any (fun tc => tc.name == "retrieve_tools")
          · simp [shouldContinue, routeSpec, hg, h1, h2]
          · by_cases h3 : selected.isEmpty <;>
              simp [shouldContinue, routeSpec, hg, h1, h2, h3]
      | human c => simp [shouldContinue, routeSpec, hg]
      | system c => simp [shouldContinue, routeSpec, hg]
      | toolMsg c i n => simp [shouldContinue, routeSpec, hg]

/-- Claim C7 (amended): for a tool whose description is a defined string,
the hashed text and the embedded text coincide. -/
theorem hash_text_eq_embed_text_of_defined (t : Tool) (d : String)
    (h : t.description = some d) : hashInputRedis t = embedInputRedis t := by
  cases t
  simp_all [hashInputRedis, embedInputRedis, createToolDocument, jsStr, orEmpty]

/-- Claim C7 witness: a concrete tool with a defined description. -/
theorem hash_text_eq_embed_text_witness :
    (Tool.mk "n" (some "d")).description = some "d"
    ∧ hashInputRedis ⟨"n", some "d"⟩ = embedInputRedis ⟨"n", some "d"⟩ :=
  ⟨rfl, hash_text_eq_embed_text_of_defined ⟨"n", some "d"⟩ "d" rfl⟩

/-- Claim C7 counterexample: for an undefined description the hash path
stringifies it as "undefined" while the embedding path defaults it to "",
so the two texts differ. -/
theorem hash_text_ne_embed_text_undefined :
    hashInputRedis ⟨"n", none⟩ = "n undefined"
    ∧ embedInputRedis ⟨"n", none⟩ = "n "
    ∧ hashInputRedis ⟨"n", none⟩ ≠ embedInputRedis ⟨"n", none⟩ := by
  refine ⟨rfl, rfl, by decide⟩

/-- Claim C8: with a store configured, a failing store search is absorbed:
the retrieval function returns the empty id list, and its outcome is never
an error (no strict mode exists that would propagate). -/
theorem retrieval_absorbs_search_errors :
    (∀ e : String, retrieveDefault true (Except.error e) = Except.ok [])
    ∧ ∀ oc : Except String (List SearchItemRec),
        ∃ ids, retrieveDefault true oc = Except.ok ids := by
  constructor
  · intro e; rfl
  · intro oc
    cases oc with
    | ok results =>
      refine ⟨results.map (fun r => r.value.tool_id), ?_⟩
      rfl
    | error e => exact ⟨[], rfl⟩

/-- Claim C1: the tool list bound by callModel contains exactly the
retrieval meta-tool, the default tools, and the registry tools whose id is
selected; and the tool node uses the same tool list. -/
theorem callModel_visible_tools (retrieveTool : Tool) (dreg : Option Registry)
    (registry : Registry) (S : List String) :
    (∀ t : Tool, t ∈ callModelTools retrieveTool dreg registry S ↔
      t = retrieveTool ∨ t ∈ defaultToolValues dreg
      ∨ ∃ id ∈ S, lookupTool registry id = some t)
    ∧ toolNodeTools retrieveTool dreg registry S
        = callModelTools retrieveTool dreg registry S := by
  constructor
  · intro t
    simp [callModelTools, List.mem_cons, List.mem_append, List.mem_filterMap]
  · show toolNodeTools retrieveTool dreg registry S = _
    unfold toolNodeTools callModelTools
    cases h : S.filterMap (fun id => lookupTool registry id) with
    | nil => simp [h]
    | cons x xs => simp [h]

/-- Claim C5: indexing a non-empty registry twice against an initially
empty cache: RedisVectorBaseStore first reports (new, unchanged) =
(size of R, 0) with one embedded text per tool, then (0, size of R) with
the state (so also the embedded texts) unchanged;
RedisCachedMemoryVectorBaseStore first reports (hits, computed) =
(0, size of R), then (size of R, 0). -/
theorem index_twice_all_miss_then_all_hit
    (hash : String → String) (embed : String → Nat) (now1 now2 : Nat)
    (registry : Registry) (hne : registry ≠ [])
    (hkeys : (registry.map Prod.fst).Nodup) :
    ((indexToolsRedis hash now1 registry emptyRedisState).2
       = (registry.length, 0)
     ∧ (indexToolsRedis hash now1 registry emptyRedisState).1.embeddedTexts.length
       = registry.length
     ∧ (indexToolsRedis hash now2 registry
          (indexToolsRedis hash now1 registry emptyRedisState).1).2
       = (0, registry.length)
     ∧ (indexToolsRedis hash now2 registry
          (indexToolsRedis hash now1 registry emptyRedisState).1).1
       = (indexToolsRedis hash now1 registry emptyRedisState).1)
    ∧ ((indexToolsCachedMem embed now1 registry emptyMemState).2
       = (0, registry.length)
     ∧ (indexToolsCachedMem embed now2 registry
          (indexToolsCachedMem embed now1 registry emptyMemState).1).2
       = (registry.length, 0)) := by
  have hp1 := indexToolsRedis_first_pass hash now1 registry hne
  have hhit : ∀ e ∈ registry,
      redisHit hash (indexToolsRedis hash now1 registry emptyRedisState).1.meta e
        = true := by
    intro e he
    rw [hp1]
    exact redisHit_after_first_pass hash now1 registry hkeys e he
  have hp2 := indexToolsRedis_second_pass hash now2 registry
    (indexToolsRedis hash now1 registry emptyRedisState).1 hne hhit
  have hm1 := indexToolsCachedMem_first_pass embed now1 registry
  have hm2 := indexToolsCachedMem_second_pass embed now2 registry
    (indexToolsCachedMem embed now1 registry emptyMemState).1 hm1.2
  refine ⟨⟨?_, ?_, ?_, ?_⟩, hm1.1, hm2⟩
  · rw [hp1]
  · rw [hp1]; simp
  · rw [hp2]
  · rw [hp2]

/-- Claim C5 witness: a concrete two-tool registry. -/
theorem index_twice_all_miss_then_all_hit_witness :
    (([("add", ⟨"add", some "adds numbers"⟩),
       ("mul", ⟨"mul", some "multiplies numbers"⟩)] : Registry) ≠ []
     ∧ (([("add", ⟨"add", some "adds numbers"⟩),
          ("mul", ⟨"mul", some "multiplies numbers"⟩)] : Registry).map
           Prod.fst).Nodup)
    ∧ (indexToolsRedis (fun s => s) 0
        [("add", ⟨"add", some "adds numbers"⟩),
         ("mul", ⟨"mul", some "multiplies numbers"⟩)] emptyRedisState).2
      = (2, 0)
    ∧ (indexToolsCachedMem String.length 0
        [("add", ⟨"add", some "adds numbers"⟩),
         ("mul", ⟨"mul", some "multiplies numbers"⟩)] emptyMemState).2
      = (0, 2) :=
  ⟨⟨by decide, by decide⟩,
   (index_twice_all_miss_then_all_hit (fun s => s) String.length 0 1
     [("add", ⟨"add", some "adds numbers"⟩),
      ("mul", ⟨"mul", some "multiplies numbers"⟩)]
     (by decide) (by decide)).1.1,
   (index_twice_all_miss_then_all_hit (fun s => s) String.length 0 1
     [("add", ⟨"add", some "adds numbers"⟩),
      ("mul", ⟨"mul", some "multiplies numbers"⟩)]
     (by decide) (by decide)).2.1⟩

/-- Claim C6 (amended): RedisVectorBaseStore.indexTools decides hit
status by fingerprint comparison: with an injective hash, changing a
defined description (name unchanged) forces a miss, leaving both
unchanged gives a hit. RedisCachedMemoryVectorBaseStore.indexTools
instead decides by mere presence of a cache entry under the tool's id:
any tool with an entry is a hit, changed description or not. -/
theorem cache_hit_decided_by_fingerprint_or_presence
    (hash : String → String) (hinj : Function.Injective hash)
    (id n d0 d1 : String) (hd : d0 ≠ d1) (now1 now2 : Nat)
    (embed : String → Nat) :
    ((indexToolsRedis hash now2 [(id, ⟨n, some d1⟩)]
        (indexToolsRedis hash now1 [(id, ⟨n, some d0⟩)] emptyRedisState).1).2
      = (1, 0)
     ∧ (indexToolsRedis hash now2 [(id, ⟨n, some d0⟩)]
        (indexToolsRedis hash now1 [(id, ⟨n, some d0⟩)] emptyRedisState).1).2
      = (0, 1))
    ∧ ∀ (st : MemState) (c : CachedEmbedding), lookupKV st.cache n = some c →
        (indexToolsCachedMem embed now2 [(id, ⟨n, some d1⟩)] st).2 = (1, 0) := by
  have hstr : n ++ " " ++ d0 ≠ n ++ " " ++ d1 := by
    intro hcontra
    have h2 := congrArg String.data hcontra
    simp [String.data_append] at h2
    exact hd (String.ext h2)
  have hp1 := indexToolsRedis_first_pass hash now1 [(id, ⟨n, some d0⟩)] (by simp)
  have hmeta : (indexToolsRedis hash now1 [(id, ⟨n, some d0⟩)] emptyRedisState).1.meta
      = [(id, (redisMetaOf hash now1 (id, ⟨n, some d0⟩)).2)] := by
    rw [hp1]
    rfl
  refine ⟨⟨?_, ?_⟩, ?_⟩
  · apply indexToolsRedis_single_miss
    rw [hmeta]
    unfold redisHit
    rw [show lookupKV [(id, (redisMetaOf hash now1 (id, ⟨n, some d0⟩)).2)] id
        = some (redisMetaOf hash now1 (id, ⟨n, some d0⟩)).2 from by simp [lookupKV]]
    simp only [redisMetaOf, hashInputRedis, jsStr]
    rw [beq_eq_false_iff_ne]
    exact hinj.ne hstr
  · have hhits : ∀ e ∈ [(id, (⟨n, some d0⟩ : Tool))],
        redisHit hash
          (indexToolsRedis hash now1 [(id, ⟨n, some d0⟩)] emptyRedisState).1.meta e
          = true := by
      intro e he
      rw [hp1]
      exact redisHit_after_first_pass hash now1 [(id, ⟨n, some d0⟩)] (by simp) e he
    rw [indexToolsRedis_second_pass hash now2 _ _ (by simp) hhits]
    rfl
  · intro st c hc
    have hpresent : ∀ e ∈ [(id, (⟨n, some d1⟩ : Tool))],
        (lookupKV st.cache (getToolId e.2)).isSome = true := by
      intro e he
      simp only [List.mem_singleton] at he
      subst he
      simp [getToolId, hc]
    exact indexToolsCachedMem_second_pass embed now2 _ st hpresent

/-- Claim C6 witness: identity hash (injective) and concrete descriptions. -/
theorem cache_hit_decided_by_fingerprint_or_presence_witness :
    ("x" : String) ≠ "y"
    ∧ (indexToolsRedis (fun s => s) 1 [("t", ⟨"n", some "y"⟩)]
        (indexToolsRedis (fun s => s) 0 [("t", ⟨"n", some "x"⟩)] emptyRedisState).1).2
      = (1, 0)
    ∧ (indexToolsRedis (fun s => s) 1 [("t", ⟨"n", some "x"⟩)]
        (indexToolsRedis (fun s => s) 0 [("t", ⟨"n", some "x"⟩)] emptyRedisState).1).2
      = (0, 1) :=
  ⟨by decide,
   (cache_hit_decided_by_fingerprint_or_presence (fun s => s) (fun _ _ h => h)
     "t" "n" "x" "y" (by decide) 0 1 (fun _ => 0)).1.1,
   (cache_hit_decided_by_fingerprint_or_presence (fun s => s) (fun _ _ h => h)
     "t" "n" "x" "y" (by decide) 0 1 (fun _ => 0)).1.2⟩

/-- Claim C6 counterexample: in RedisCachedMemoryVectorBaseStore, after
indexing a tool with description "d1", re-indexing it with description
"d2" (display name unchanged) still reports a cache hit (1 hit, 0
computed embeddings), where the claim demands a miss. -/
theorem changed_description_still_hit_counterexample :
    (indexToolsCachedMem String.length 0 [("n", ⟨"n", some "d2"⟩)]
      (indexToolsCachedMem String.length 0 [("n", ⟨"n", some "d1"⟩)]
        emptyMemState).1).2
      = (1, 0)
    ∧ ("d1" : String) ≠ "d2" := by
  refine ⟨by decide, by decide⟩

/-- Claim C9 (amended): for every query and every limit k of at least 1,
the search returns at most k items and the retrieval pipeline at most k
ids (a limit of 0 or absent falls back to 10); the ids are not
deduplicated. -/
theorem search_returns_at_most_limit (embed : String → Nat)
    (simFn : Nat → Nat → Int) (st : MemState) (k : Nat) (hk : 1 ≤ k)
    (query : String) :
    (searchMem embed simFn st (some k) query).length ≤ k
    ∧ ∃ ids : List String,
        retrieveDefault true (Except.ok (searchMem embed simFn st (some k) query))
          = Except.ok ids ∧ ids.length ≤ k := by
  have hk0 : ¬ k = 0 := by omega
  have hl : effectiveLimit (some k) = k := by simp [effectiveLimit, hk0]
  have hlen : (searchMem embed simFn st (some k) query).length ≤ k := by
    unfold searchMem
    rw [hl]
    by_cases hq : query = ""
    · rw [if_pos hq, List.length_map]
      exact List.length_take_le k st.toolMetadata
    · rw [if_neg hq, List.length_map]
      unfold similaritySearchScored
      exact List.length_take_le k _
  refine ⟨hlen,
    (searchMem embed simFn st (some k) query).map (fun r => r.value.tool_id), ?_, ?_⟩
  · rfl
  · rw [List.length_map]
    exact hlen

/-- Claim C9 witness: a concrete search respecting the limit. -/
theorem search_returns_at_most_limit_witness :
    1 ≤ 2
    ∧ (searchMem (fun _ => 0) (fun _ _ => 0) emptyMemState (some 2) "q").length ≤ 2 :=
  ⟨by decide,
   (search_returns_at_most_limit (fun _ => 0) (fun _ _ => 0) emptyMemState 2
     (by decide) "q").1⟩

/-- Claim C9 counterexample: after indexing the same one-tool registry
twice with MemoryVectorBaseStore, the vector store holds two documents
for tool id "a" and the retrieval pipeline returns that id twice: the
result is not duplicate free. -/
theorem search_duplicate_ids_counterexample :
    retrieveDefault true (Except.ok (searchMem (fun _ => 0) (fun _ _ => 0)
        (indexToolsMem (fun _ => 0) [("a", ⟨"a", some "d"⟩)]
          (indexToolsMem (fun _ => 0) [("a", ⟨"a", some "d"⟩)] emptyMemState))
        (some 2) "q"))
      = Except.ok ["a", "a"]
    ∧ ¬ (["a", "a"] : List String).Nodup := by
  refine ⟨by rfl, by decide⟩

/-- Claim C10: on an AI message mixing retrieve_tools calls with calls to
other concrete tools, selectTools produces exactly one ToolMessage per
retrieve_tools call (all named retrieve_tools) and merges exactly the ids
those calls retrieved; the concrete calls receive no ToolMessage and are
not executed by this node. -/
theorem selectTools_handles_only_retrieve_calls
    (registry : Registry) (retrieveFn : String → List String)
    (messages : List Message) (calls : List ToolCall)
    (hlast : messages.getLast? = some (Message.ai calls))
    (hr : ∃ tc ∈ calls, tc.name = "retrieve_tools")
    (hc : ∃ tc ∈ calls, tc.name ≠ "retrieve_tools") :
    (selectTools registry retrieveFn messages).messages
      = (calls.filter (fun tc => tc.name == "retrieve_tools")).map
          (fun tc => Message.toolMsg (retrievalContent registry (retrieveFn tc.query))
             (tc.id.getD "") "retrieve_tools")
    ∧ (selectTools registry retrieveFn messages).selected_tool_ids
      = (calls.filter (fun tc => tc.name == "retrieve_tools")).flatMap
          (fun tc => retrieveFn tc.query)
    ∧ ∀ m ∈ (selectTools registry retrieveFn messages).messages,
        ∃ c i, m = Message.toolMsg c i "retrieve_tools" := by
  have hne : calls.isEmpty = false := by
    obtain ⟨tc, htc, _⟩ := hr
    cases calls with
    | nil => simp at htc
    | cons x xs => rfl
  have hsel : selectTools registry retrieveFn messages
      = ⟨(calls.foldl (selectStep registry retrieveFn) ([], [])).1,
         (calls.foldl (selectStep registry retrieveFn) ([], [])).2⟩ := by
    unfold selectTools
    rw [hlast]
    simp [hne]
  rw [hsel, selectFold_eq]
  refine ⟨by simp, by simp, ?_⟩
  intro m hm
  simp only [List.nil_append, List.mem_map] at hm
  obtain ⟨tc, _, hmm⟩ := hm
  exact ⟨_, _, hmm.symm⟩

/-- Claim C10 witness: a message mixing one retrieve_tools call with one
concrete call. -/
theorem selectTools_handles_only_retrieve_calls_witness :
    (selectTools [] (fun _ => ["x"])
       [Message.ai [⟨"retrieve_tools", "q", some "1"⟩,
                    ⟨"add", "", some "2"⟩]]).selected_tool_ids
      = ["x"] := by
  have h := selectTools_handles_only_retrieve_calls [] (fun _ => ["x"])
    [Message.ai [⟨"retrieve_tools", "q", some "1"⟩, ⟨"add", "", some "2"⟩]]
    [⟨"retrieve_tools", "q", some "1"⟩, ⟨"add", "", some "2"⟩]
    (by rfl)
    ⟨⟨"retrieve_tools", "q", some "1"⟩, by decide, rfl⟩
    ⟨⟨"add", "", some "2"⟩, by decide, by decide⟩
  rw [h.2.1]
  rfl

end BigTool
